import Mathlib

/-!
Shallow embedding of the call-next test-support library.

The source consists of two parallel implementations of the same mechanism:
a shared-object ledger (src/src/stub.ts) and a closure-based ledger
(src/unnamed/part_000), plus a one-line completion guard (src/src/done.ts).
We embed the shared-object implementation as the primary model and the
closure-based variant where the two differ: at session entry (the
closure-based stub resets the ledger, the shared-object stub does not) and
at session teardown (the shared-object unstub resets the ledger, the
closure-based unstub only deactivates tracking).

JavaScript values are modelled by an inductive type with reference identity
for objects and functions; the microtask machinery is modelled by a promise
heap (indexed by allocation order) holding each promise settlement state, and a
microtask turn is a list of continuations, each issuing a list of tracked
commands.
-/

/-- A JavaScript value, as far as the library inspects values: undefined,
null, booleans, numbers, strings, and opaque object or function references
identified by an allocation id. -/
inductive JVal where
  | undef
  | null
  | bool (b : Bool)
  | num (n : Int)
  | str (s : String)
  | ref (id : Nat)
deriving DecidableEq, Repr

/-- Settlement state of an ES6 promise. -/
inductive PState where
  | pending
  | fulfilled (v : JVal)
  | rejected (e : JVal)
deriving DecidableEq, Repr

/-- The Cmd interface of src/src/stub.ts: an optional context property (none
means the property is absent from the object; some JVal.undef means the
property is present and holds undefined), the function reference, and the
captured argument list. -/
structure Cmd where
  context : Option JVal
  fn : JVal
  args : List JVal
deriving DecidableEq, Repr

/-- The Call interface of src/src/stub.ts: the recorded command together with
the id of the promise that track returned for it; resolve and reject settle
the heap slot at that id. -/
structure CallRec where
  cmd : Cmd
  pid : Nat
deriving DecidableEq, Repr

/-- The global tracking context of src/src/stub.ts (calls list and stub
flag) together with the runtime state the library manipulates: the promise
heap, and a log of invocations of real wrapped functions (written only by
the pass-through path of the call wrapper). -/
structure State where
  calls : List CallRec
  stub : Bool
  heap : List PState
  invoked : List (JVal × List JVal)
deriving DecidableEq, Repr

/-- Context normalization inside track (src/src/stub.ts lines 41-44): if
typeof cmd.context is undefined, or cmd.context is null, the command is
rebuilt with only fn and args, so the context property is absent. -/
def normalizeCmd (cmd : Cmd) : Cmd :=
  if cmd.context = none ∨ cmd.context = some JVal.undef ∨ cmd.context = some JVal.null
  then { context := none, fn := cmd.fn, args := cmd.args }
  else cmd

/-- track (src/src/stub.ts lines 31-53): when stubbing is inactive it
returns void and does nothing; when active it allocates a fresh pending
promise, normalizes the command, appends a Call record to the ledger and
returns the promise (here: its heap id). -/
def track (cmd : Cmd) (st : State) : Option Nat × State :=
  if st.stub then
    (some st.heap.length,
      { st with
        heap := st.heap ++ [PState.pending],
        calls := st.calls ++ [{ cmd := normalizeCmd cmd, pid := st.heap.length }] })
  else (none, st)

/-- stub (src/src/stub.ts lines 56-58): sets the stub flag; it does not
touch the calls list. -/
def stub (st : State) : State :=
  { st with stub := true }

/-- reset (src/src/stub.ts lines 66-68): empties the calls list. -/
def reset (st : State) : State :=
  { st with calls := [] }

/-- unstub (src/src/stub.ts lines 60-64): clears the stub flag, then
resets the calls list. -/
def unstub (st : State) : State :=
  reset { st with stub := false }

/-- stub of the closure-based variant (src/unnamed/part_000 lines 40-44):
resets the calls list, then installs track as the active stub. -/
def stubV0 (st : State) : State :=
  { reset st with stub := true }

/-- unstub of the closure-based variant (src/unnamed/part_000 lines 46-49):
setStub with no argument deactivates tracking; the module-local calls list
is not touched. -/
def unstubV0 (st : State) : State :=
  { st with stub := false }

/-- A continuation queued on the microtask queue runs the interceptor calls
it issues, in order: it is modelled by the list of commands it tracks. -/
def runCont (k : List Cmd) (st : State) : State :=
  k.foldl (fun s c => (track c s).2) st

/-- One microtask turn: every continuation queued for the turn runs, in
queue order. -/
def runTurn (queued : List (List Cmd)) (st : State) : State :=
  queued.foldl (fun s k => runCont k s) st

/-- next (src/src/stub.ts lines 71-75): reset the calls list, then await
an already-resolved promise, which suspends the caller until one microtask
turn (the queued continuations) has run. -/
def next (queued : List (List Cmd)) (st : State) : State :=
  runTurn queued (reset st)

/-- getCalls with no argument (src/src/stub.ts lines 85-92): the full
current calls list. -/
def getCalls (st : State) : List CallRec :=
  st.calls

/-- getCalls with a numeric argument (src/src/stub.ts lines 85-92): the
element of the calls array at that index, which in JavaScript is undefined
(here: none) when the index is out of bounds; no error is raised. -/
def getCallsAt (n : Int) (st : State) : Option CallRec :=
  if 0 ≤ n then st.calls.get? n.toNat else none

/-- Settling a promise allocated by track: the resolve and reject closures
captured from the promise constructor settle their slot exactly once, so a
slot that is no longer pending is left unchanged. -/
def settleAt (pid : Nat) (out : PState) (heap : List PState) : List PState :=
  if heap.get? pid = some PState.pending then heap.set pid out else heap

/-- The resolve handle of a Call record: fulfills the promise track
returned for that call. -/
def resolveCall (c : CallRec) (v : JVal) (st : State) : State :=
  { st with heap := settleAt c.pid (PState.fulfilled v) st.heap }

/-- The reject handle of a Call record: rejects the promise track returned
for that call with the given error value, unchanged. -/
def rejectCall (c : CallRec) (e : JVal) (st : State) : State :=
  { st with heap := settleAt c.pid (PState.rejected e) st.heap }

/-- Outcome of awaiting the test body passed to withStub: the body either
fulfills with a value or rejects with an error. -/
inductive Outcome where
  | ok (v : JVal)
  | err (e : JVal)
deriving DecidableEq, Repr

/-- withStub (src/src/stub.ts lines 102-113): stub, reset, run the test
body, and in a finally block unstub, so the cleanup happens whether the
body fulfills or rejects, and the outcome is propagated unchanged. -/
def withStub (body : State → Outcome × State) (st : State) : Outcome × State :=
  let st1 := reset (stub st)
  let res := body st1
  (res.1, unstub res.2)

/-- withStub of the closure-based variant (src/unnamed/part_000 lines
84-98): stubV0, reset, run the test body, and in a finally block unstubV0;
this teardown deactivates stubbing but does not reset the ledger. -/
def withStubV0 (body : State → Outcome × State) (st : State) : Outcome × State :=
  let st1 := reset (stubV0 st)
  let res := body st1
  (res.1, unstubV0 res.2)

/-- The rejection value used by assertDone (src/src/done.ts). -/
def notSettledMsg : JVal :=
  JVal.str "Promise has not resolved or rejected"

/-- Promise.race of a two-element array: reactions are attached in array
order within the same turn, so an already-settled first element wins;
otherwise the race settles as the second element does. -/
def race2 (a b : PState) : PState :=
  match a with
  | PState.pending => b
  | _ => a

/-- assertDone (src/src/done.ts lines 8-10): the race of the guarded
promise against an immediately-rejecting promise carrying notSettledMsg. -/
def assertDone (p : PState) : PState :=
  race2 p (PState.rejected notSettledMsg)

/-- A synchronous burst of N interceptor calls: track is applied to each
command in order, and the promise returned by each call (its heap id, or
none in pass-through mode) is collected in order. -/
def trackMany (cmds : List Cmd) (st : State) : List (Option Nat) × State :=
  match cmds with
  | [] => ([], st)
  | c :: rest =>
    let r := track c st
    let r2 := trackMany rest r.2
    (r.1 :: r2.1, r2.2)

/-- The ledger entries a burst of commands appends when stubbing is active
and the promise heap has h0 slots already allocated. -/
def trackedEntries (cmds : List Cmd) (h0 : Nat) : List CallRec :=
  match cmds with
  | [] => []
  | c :: rest => { cmd := normalizeCmd c, pid := h0 } :: trackedEntries rest (h0 + 1)

theorem trackedEntries_length (cmds : List Cmd) (h0 : Nat) :
    (trackedEntries cmds h0).length = cmds.length := by
  induction cmds generalizing h0 with
  | nil => rfl
  | cons c rest ih => simp [trackedEntries, ih]

theorem trackedEntries_map_cmd (cmds : List Cmd) (h0 : Nat) :
    (trackedEntries cmds h0).map CallRec.cmd = cmds.map normalizeCmd := by
  induction cmds generalizing h0 with
  | nil => rfl
  | cons c rest ih => simp [trackedEntries, ih]

theorem trackedEntries_get? (cmds : List Cmd) (h0 i : Nat) (hi : i < cmds.length) :
    ∃ c, cmds.get? i = some c ∧
      (trackedEntries cmds h0).get? i = some { cmd := normalizeCmd c, pid := h0 + i } := by
  induction cmds generalizing h0 i with
  | nil => simp at hi
  | cons c rest ih =>
    cases i with
    | zero => exact ⟨c, rfl, rfl⟩
    | succ i =>
      obtain ⟨c2, h1, h2⟩ := ih (h0 + 1) i (by simpa using hi)
      refine ⟨c2, h1, ?_⟩
      rw [show h0 + (i + 1) = h0 + 1 + i from by omega]
      simpa [trackedEntries] using h2

theorem get?_append_add {α : Type _} (l l2 : List α) (i : Nat) :
    (l ++ l2).get? (l.length + i) = l2.get? i := by
  induction l with
  | nil => simp
  | cons a l ih =>
    rw [List.cons_append, List.length_cons,
      show l.length + 1 + i = (l.length + i) + 1 from by omega]
    simpa using ih

theorem get?_replicate_lt {α : Type _} (n i : Nat) (a : α) (hi : i < n) :
    (List.replicate n a).get? i = some a := by
  induction n generalizing i with
  | zero => omega
  | succ n ih =>
    cases i with
    | zero => rfl
    | succ i =>
      rw [List.replicate_succ]
      simpa using ih i (by omega)

theorem get?_set_self {α : Type _} (l : List α) (i : Nat) (a : α) (hi : i < l.length) :
    (l.set i a).get? i = some a := by
  induction l generalizing i with
  | nil => simp at hi
  | cons b l ih =>
    cases i with
    | zero => rfl
    | succ i => simpa using ih i (by simpa using hi)

theorem track_active (cmd : Cmd) (st : State) (h : st.stub = true) :
    track cmd st =
      (some st.heap.length,
        { st with
          heap := st.heap ++ [PState.pending],
          calls := st.calls ++ [{ cmd := normalizeCmd cmd, pid := st.heap.length }] }) := by
  simp [track, h]

theorem trackMany_state (cmds : List Cmd) (st : State) (h : st.stub = true) :
    (trackMany cmds st).2 =
      { st with
        calls := st.calls ++ trackedEntries cmds st.heap.length,
        heap := st.heap ++ List.replicate cmds.length PState.pending } := by
  induction cmds generalizing st with
  | nil => simp [trackMany, trackedEntries]
  | cons c rest ih =>
    rw [trackMany, track_active c st h]
    have ih2 := ih { st with
        heap := st.heap ++ [PState.pending],
        calls := st.calls ++ [{ cmd := normalizeCmd c, pid := st.heap.length }] } h
    simp only [ih2]
    simp [trackedEntries, List.replicate_succ, List.append_assoc]

theorem trackMany_pids (cmds : List Cmd) (st : State) (h : st.stub = true)
    (i : Nat) (hi : i < cmds.length) :
    (trackMany cmds st).1.get? i = some (some (st.heap.length + i)) := by
  induction cmds generalizing st i with
  | nil => simp at hi
  | cons c rest ih =>
    rw [trackMany, track_active c st h]
    cases i with
    | zero => simp
    | succ i =>
      have ih2 := ih { st with
          heap := st.heap ++ [PState.pending],
          calls := st.calls ++ [{ cmd := normalizeCmd c, pid := st.heap.length }] } h
        i (by simpa using hi)
      simp only [List.length_append, List.length_singleton] at ih2
      rw [show st.heap.length + (i + 1) = st.heap.length + 1 + i from by omega]
      simpa using ih2

/-- Example command with no context, used by concrete witnesses. -/
def cmdA : Cmd := { context := none, fn := JVal.ref 0, args := [JVal.num 1] }

/-- Example command with a real object context, used by concrete witnesses. -/
def cmdB : Cmd := { context := some (JVal.ref 7), fn := JVal.ref 1, args := [] }

/-- Example command whose context is explicitly null, used by concrete
witnesses. -/
def cmdN : Cmd := { context := some JVal.null, fn := JVal.ref 2, args := [JVal.num 3] }

/-- Example initial state: stubbing active, empty ledger, empty heap. -/
def st0 : State := { calls := [], stub := true, heap := [], invoked := [] }

/-- Example ledger entry, used by concrete witnesses. -/
def cEx : CallRec := { cmd := { context := none, fn := JVal.ref 0, args := [] }, pid := 0 }

/-- Example state holding one ledger entry and its pending promise. -/
def stEx : State := { calls := [cEx], stub := true, heap := [PState.pending], invoked := [] }

/-- C1: a synchronous burst of N interceptor calls made while stubbing is
active, starting from a cleared ledger, yields a ledger of length N whose
i-th entry records the i-th command (normalized) and carries the promise
returned by the i-th call, in exact call order. -/
theorem C1_synchronous_calls_in_order (cmds : List Cmd) (st : State)
    (hstub : st.stub = true) (hempty : st.calls = []) :
    (getCalls (trackMany cmds st).2).length = cmds.length
    ∧ ∀ i, i < cmds.length →
        ∃ c e, cmds.get? i = some c
          ∧ (getCalls (trackMany cmds st).2).get? i = some e
          ∧ e.cmd = normalizeCmd c
          ∧ (trackMany cmds st).1.get? i = some (some e.pid) := by
  have hs := trackMany_state cmds st hstub
  constructor
  · rw [getCalls, hs]
    simp [hempty, trackedEntries_length]
  · intro i hi
    obtain ⟨c, hc, he⟩ := trackedEntries_get? cmds st.heap.length i hi
    refine ⟨c, { cmd := normalizeCmd c, pid := st.heap.length + i }, hc, ?_, rfl, ?_⟩
    · rw [getCalls, hs]
      simpa [hempty] using he
    · exact trackMany_pids cmds st hstub i hi

/-- Witness for C1 at the concrete burst [cmdA, cmdB] from st0. -/
theorem C1_witness :
    st0.stub = true ∧ st0.calls = []
    ∧ ((getCalls (trackMany [cmdA, cmdB] st0).2).length = ([cmdA, cmdB] : List Cmd).length
       ∧ ∀ i, i < ([cmdA, cmdB] : List Cmd).length →
          ∃ c e, ([cmdA, cmdB] : List Cmd).get? i = some c
            ∧ (getCalls (trackMany [cmdA, cmdB] st0).2).get? i = some e
            ∧ e.cmd = normalizeCmd c
            ∧ (trackMany [cmdA, cmdB] st0).1.get? i = some (some e.pid)) :=
  ⟨rfl, rfl, C1_synchronous_calls_in_order [cmdA, cmdB] st0 rfl rfl⟩

/-- C2 counterexample: in the closure-based implementation
(src/unnamed/part_000), the finally block of withStub runs unstubV0, which
only deactivates stubbing, so a body that tracks one call leaves that
ledger entry in place after withStub returns — the ledger is not cleared
before the result propagates. -/
theorem C2_withStub_counterexample :
    (withStubV0 (fun st => (Outcome.ok (JVal.num 0), (track cmdA st).2)) st0).2.stub = false
    ∧ (withStubV0 (fun st => (Outcome.ok (JVal.num 0), (track cmdA st).2)) st0).2.calls
        = [{ cmd := cmdA, pid := 0 }]
    ∧ (withStubV0 (fun st => (Outcome.ok (JVal.num 0), (track cmdA st).2)) st0).2.calls
        ≠ [] :=
  ⟨rfl, rfl, by decide⟩

/-- C2 amended: for every test body, both implementations of withStub
deactivate stubbing before propagating the outcome of the body,
fulfillment or rejection, unchanged; the shared-object withStub
(src/src/stub.ts) also clears the ledger at teardown, while the
closure-based withStub (src/unnamed/part_000) leaves the ledger exactly as
the body left it, and it is cleared only at the next session entry, when
stubV0 resets it. -/
theorem C2_withStub_amended (body : State → Outcome × State) (st : State) :
    (withStub body st).2.stub = false
    ∧ (withStub body st).2.calls = []
    ∧ (withStub body st).1 = (body (reset (stub st))).1
    ∧ (withStubV0 body st).2.stub = false
    ∧ (withStubV0 body st).2.calls = (body (reset (stubV0 st))).2.calls
    ∧ (withStubV0 body st).1 = (body (reset (stubV0 st))).1
    ∧ (stubV0 (withStubV0 body st).2).calls = [] := by
  refine ⟨rfl, rfl, rfl, rfl, rfl, rfl, rfl⟩

theorem runCont_eq_trackMany (k : List Cmd) (st : State) :
    runCont k st = (trackMany k st).2 := by
  induction k generalizing st with
  | nil => rfl
  | cons c rest ih =>
    rw [trackMany]
    simpa [runCont] using ih (track c st).2

theorem runTurn_calls (queued : List (List Cmd)) (st : State) (h : st.stub = true) :
    (runTurn queued st).calls.map CallRec.cmd
      = st.calls.map CallRec.cmd ++ queued.flatten.map normalizeCmd
    ∧ (runTurn queued st).stub = true := by
  induction queued generalizing st with
  | nil => simp [runTurn, h]
  | cons k rest ih =>
    have hstep : runCont k st =
        { st with
          calls := st.calls ++ trackedEntries k st.heap.length,
          heap := st.heap ++ List.replicate k.length PState.pending } := by
      rw [runCont_eq_trackMany]
      exact trackMany_state k st h
    have hturn : runTurn (k :: rest) st = runTurn rest (runCont k st) := by
      simp [runTurn]
    obtain ⟨ih1, ih2⟩ := ih (runCont k st) (by rw [hstep]; simpa using h)
    refine ⟨?_, by rw [hturn]; exact ih2⟩
    rw [hturn, ih1, hstep]
    simp [trackedEntries_map_cmd, List.append_assoc]

/-- C3: next first clears the ledger and then yields for one microtask
turn, so afterwards the ledger holds exactly the commands tracked by the
continuations that ran during that turn, in order, and its contents do not
depend on any entry recorded before the tick. -/
theorem C3_next_one_tick (queued : List (List Cmd)) (st : State) (hstub : st.stub = true) :
    (getCalls (next queued st)).map CallRec.cmd = queued.flatten.map normalizeCmd
    ∧ next queued st = next queued (reset st) := by
  constructor
  · have h := runTurn_calls queued (reset st) (by simpa [reset] using hstub)
    simpa [next, getCalls, reset] using h.1
  · rfl

/-- Witness for C3 at two queued continuations from a state whose ledger
already holds an entry. -/
theorem C3_witness :
    stEx.stub = true
    ∧ ((getCalls (next [[cmdA], [cmdB]] stEx)).map CallRec.cmd
          = ([[cmdA], [cmdB]] : List (List Cmd)).flatten.map normalizeCmd
       ∧ next [[cmdA], [cmdB]] stEx = next [[cmdA], [cmdB]] (reset stEx)) :=
  ⟨rfl, C3_next_one_tick [[cmdA], [cmdB]] stEx rfl⟩

/-- C4: after a burst of tracked calls from a cleared ledger, the i-th
ledger entry carries the very promise returned by the i-th call; resolving
it fulfills that promise with exactly the given value, rejecting it rejects
that promise with the identical error value, and no step invokes a real
wrapped function. -/
theorem C4_resolve_reject_identity (cmds : List Cmd) (st : State)
    (hstub : st.stub = true) (hempty : st.calls = [])
    (i : Nat) (hi : i < cmds.length) (v e : JVal) :
    ∃ c, getCallsAt (Int.ofNat i) (trackMany cmds st).2 = some c
      ∧ (trackMany cmds st).1.get? i = some (some c.pid)
      ∧ (resolveCall c v (trackMany cmds st).2).heap.get? c.pid
          = some (PState.fulfilled v)
      ∧ (rejectCall c e (trackMany cmds st).2).heap.get? c.pid
          = some (PState.rejected e)
      ∧ (trackMany cmds st).2.invoked = st.invoked
      ∧ (resolveCall c v (trackMany cmds st).2).invoked = st.invoked
      ∧ (rejectCall c e (trackMany cmds st).2).invoked = st.invoked := by
  have hs := trackMany_state cmds st hstub
  obtain ⟨c, hc, he⟩ := trackedEntries_get? cmds st.heap.length i hi
  have hpend : (st.heap ++ List.replicate cmds.length PState.pending).get?
      (st.heap.length + i) = some PState.pending := by
    rw [get?_append_add]
    exact get?_replicate_lt cmds.length i PState.pending hi
  have hlen : st.heap.length + i
      < (st.heap ++ List.replicate cmds.length PState.pending).length := by
    simp only [List.length_append, List.length_replicate]
    omega
  have hheap : (trackMany cmds st).2.heap
      = st.heap ++ List.replicate cmds.length PState.pending := by
    rw [hs]
  refine ⟨{ cmd := normalizeCmd c, pid := st.heap.length + i }, ?_, ?_, ?_, ?_, ?_, ?_, ?_⟩
  · rw [getCallsAt]
    simp only [Int.ofNat_eq_coe, Int.toNat_ofNat]
    rw [if_pos (by positivity), hs]
    simpa [hempty] using he
  · exact trackMany_pids cmds st hstub i hi
  · show (settleAt (st.heap.length + i) (PState.fulfilled v)
        (trackMany cmds st).2.heap).get? (st.heap.length + i) = _
    rw [hheap, settleAt, if_pos hpend]
    exact get?_set_self _ _ _ hlen
  · show (settleAt (st.heap.length + i) (PState.rejected e)
        (trackMany cmds st).2.heap).get? (st.heap.length + i) = _
    rw [hheap, settleAt, if_pos hpend]
    exact get?_set_self _ _ _ hlen
  · rw [hs]
  · rw [resolveCall, hs]
  · rw [rejectCall, hs]

/-- Witness for C4 at the burst [cmdA] from st0, index 0, value 5 and
error string boom. -/
theorem C4_witness :
    st0.stub = true ∧ st0.calls = [] ∧ 0 < ([cmdA] : List Cmd).length
    ∧ (∃ c, getCallsAt (Int.ofNat 0) (trackMany [cmdA] st0).2 = some c
        ∧ (trackMany [cmdA] st0).1.get? 0 = some (some c.pid)
        ∧ (resolveCall c (JVal.num 5) (trackMany [cmdA] st0).2).heap.get? c.pid
            = some (PState.fulfilled (JVal.num 5))
        ∧ (rejectCall c (JVal.str "boom") (trackMany [cmdA] st0).2).heap.get? c.pid
            = some (PState.rejected (JVal.str "boom"))
        ∧ (trackMany [cmdA] st0).2.invoked = st0.invoked
        ∧ (resolveCall c (JVal.num 5) (trackMany [cmdA] st0).2).invoked = st0.invoked
        ∧ (rejectCall c (JVal.str "boom") (trackMany [cmdA] st0).2).invoked = st0.invoked) :=
  ⟨rfl, rfl, by decide,
    C4_resolve_reject_identity [cmdA] st0 rfl rfl 0 (by decide) (JVal.num 5) (JVal.str "boom")⟩

/-- C7: assertDone(p) settles exactly as p does whenever p has settled by
the time the race is decided, and rejects with the not-yet-settled
indicator when p is still pending. -/
theorem C7_assertDone_race :
    (∀ v, assertDone (PState.fulfilled v) = PState.fulfilled v)
    ∧ (∀ e, assertDone (PState.rejected e) = PState.rejected e)
    ∧ assertDone PState.pending = PState.rejected notSettledMsg := by
  refine ⟨fun v => rfl, fun e => rfl, rfl⟩

/-- C5: when a tracked command carries no context (the property is absent),
the recorded cmd consists of only fn and args, with no context field at
all; when it carries a real (non-nullish) context, the recorded cmd is the
command unchanged, context included. -/
theorem C5_context_omitted_or_preserved (cmd : Cmd) (st : State) (hstub : st.stub = true) :
    (cmd.context = none →
      (track cmd st).2.calls.getLast?
        = some { cmd := { context := none, fn := cmd.fn, args := cmd.args },
                 pid := st.heap.length })
    ∧ (∀ v, cmd.context = some v → v ≠ JVal.undef → v ≠ JVal.null →
      (track cmd st).2.calls.getLast? = some { cmd := cmd, pid := st.heap.length }) := by
  rw [track_active cmd st hstub]
  constructor
  · intro h
    rw [show normalizeCmd cmd = { context := none, fn := cmd.fn, args := cmd.args } from by
      simp [normalizeCmd, h]]
    simp
  · intro v hv hu hn
    rw [show normalizeCmd cmd = cmd from by
      rw [normalizeCmd, if_neg]
      rw [hv]
      push_neg
      refine ⟨by simp, by simpa using hu, by simpa using hn⟩]
    simp

/-- Witness for C5 at cmdA (no context) and cmdB (real context) from st0. -/
theorem C5_witness :
    st0.stub = true ∧ cmdA.context = none
    ∧ (track cmdA st0).2.calls.getLast?
        = some { cmd := { context := none, fn := cmdA.fn, args := cmdA.args },
                 pid := st0.heap.length }
    ∧ cmdB.context = some (JVal.ref 7)
    ∧ (track cmdB st0).2.calls.getLast? = some { cmd := cmdB, pid := st0.heap.length } :=
  ⟨rfl, rfl, (C5_context_omitted_or_preserved cmdA st0 rfl).1 rfl, rfl,
    (C5_context_omitted_or_preserved cmdB st0 rfl).2 (JVal.ref 7) rfl (by decide) (by decide)⟩

/-- C10: a command whose context is explicitly null is tracked exactly as
if no context had been supplied: track behaves identically on the two
commands, and the recorded cmd holds only fn and args. -/
theorem C10_null_context_as_absent (cmd : Cmd) (st : State)
    (h : cmd.context = some JVal.null) :
    track cmd st = track { context := none, fn := cmd.fn, args := cmd.args } st
    ∧ (st.stub = true →
        (track cmd st).2.calls.getLast?
          = some { cmd := { context := none, fn := cmd.fn, args := cmd.args },
                   pid := st.heap.length }) := by
  have hn : normalizeCmd cmd = { context := none, fn := cmd.fn, args := cmd.args } := by
    simp [normalizeCmd, h]
  constructor
  · rw [track, track, hn]
    rw [show normalizeCmd { context := none, fn := cmd.fn, args := cmd.args } =
        { context := none, fn := cmd.fn, args := cmd.args } from by simp [normalizeCmd]]
  · intro hstub
    rw [track_active cmd st hstub, hn]
    simp

/-- Witness for C10 at cmdN (explicit null context) from st0. -/
theorem C10_witness :
    cmdN.context = some JVal.null
    ∧ track cmdN st0 = track { context := none, fn := cmdN.fn, args := cmdN.args } st0
    ∧ st0.stub = true
    ∧ (track cmdN st0).2.calls.getLast?
        = some { cmd := { context := none, fn := cmdN.fn, args := cmdN.args },
                 pid := st0.heap.length } :=
  ⟨rfl, (C10_null_context_as_absent cmdN st0 rfl).1, rfl,
    (C10_null_context_as_absent cmdN st0 rfl).2 rfl⟩

/-- C8: getCalls with a numeric index returns the ledger entry at that
zero-based position in insertion order when the index is in range, and the
out-of-bounds sentinel none otherwise; being a total function it never
raises. -/
theorem C8_getCallsAt_total (n : Int) (st : State) :
    (∀ (hn : 0 ≤ n) (hlt : n.toNat < st.calls.length),
        getCallsAt n st = some (st.calls.get ⟨n.toNat, hlt⟩))
    ∧ ((n < 0 ∨ st.calls.length ≤ n.toNat) → getCallsAt n st = none) := by
  constructor
  · intro hn hlt
    rw [getCallsAt, if_pos hn]
    exact List.get?_eq_get hlt
  · intro h
    rcases h with h | h
    · rw [getCallsAt, if_neg (by omega)]
    · rw [getCallsAt]
      rw [List.get?_eq_none.2 h]
      simp

/-- Witness for C8 at an in-range index, a negative index and an index past
the end of the one-entry ledger stEx. -/
theorem C8_witness :
    getCallsAt 0 stEx = some cEx ∧ getCallsAt (-1) stEx = none
    ∧ getCallsAt 5 stEx = none := by
  refine ⟨?_, ?_, ?_⟩
  · exact (C8_getCallsAt_total 0 stEx).1 (by decide) (by decide)
  · exact (C8_getCallsAt_total (-1) stEx).2 (Or.inl (by decide))
  · exact (C8_getCallsAt_total 5 stEx).2 (Or.inr (by decide))

/-- C6 counterexample: in the shared-object implementation
(src/src/stub.ts), stub only sets the stub flag; entering a session through
it leaves an existing ledger entry in place, so the ledger is not cleared
by all three boundary operations. -/
theorem C6_counterexample :
    (stub stEx).calls = [cEx] ∧ (stub stEx).calls ≠ [] :=
  ⟨rfl, by decide⟩

/-- C6 amended: reset and the start of each tick advance (next) clear the
ledger in both implementations; the other two boundary operations each
clear it in only one implementation: at session entry the closure-based
stub of src/unnamed/part_000 resets the ledger while the shared-object
stub of src/src/stub.ts only activates stubbing (withStub compensates by
calling reset), and at session teardown the shared-object unstub resets
the ledger while the closure-based unstub only deactivates stubbing. -/
theorem C6_amended_boundaries (st : State) :
    (reset st).calls = []
    ∧ (next [] st).calls = []
    ∧ (∀ queued, next queued st = next queued (reset st))
    ∧ (stubV0 st).calls = [] ∧ (stubV0 st).stub = true
    ∧ (stub st).calls = st.calls ∧ (stub st).stub = true
    ∧ (unstub st).calls = [] ∧ (unstub st).stub = false
    ∧ (unstubV0 st).calls = st.calls ∧ (unstubV0 st).stub = false :=
  ⟨rfl, rfl, fun _ => rfl, rfl, rfl, rfl, rfl, rfl, rfl, rfl, rfl⟩

/-- C9 counterexample: the not-yet-settled rejection value of assertDone is
the plain string used in src/src/done.ts, and a test can reject a tracked
call with that very string, which is then stored identically; the indicator
is therefore not distinct from every application error value. -/
theorem C9_counterexample :
    assertDone PState.pending
      = PState.rejected (JVal.str "Promise has not resolved or rejected")
    ∧ (rejectCall cEx (JVal.str "Promise has not resolved or rejected") stEx).heap
      = [PState.rejected (JVal.str "Promise has not resolved or rejected")] :=
  ⟨rfl, by decide⟩

/-- C9 amended: the not-yet-settled rejection value is the fixed string
used in src/src/done.ts, and it is distinct from every application error
value other than that exact string. -/
theorem C9_sentinel_distinct_unless_same_string (e : JVal)
    (h : e ≠ JVal.str "Promise has not resolved or rejected") :
    assertDone PState.pending ≠ PState.rejected e ∧ notSettledMsg ≠ e := by
  constructor
  · intro hc
    exact h (PState.rejected.inj hc).symm
  · intro hc
    exact h hc.symm

/-- Witness for the amended C9 at the application error value 0. -/
theorem C9_amended_witness :
    JVal.num 0 ≠ JVal.str "Promise has not resolved or rejected"
    ∧ (assertDone PState.pending ≠ PState.rejected (JVal.num 0)
       ∧ notSettledMsg ≠ JVal.num 0) :=
  ⟨by decide, C9_sentinel_distinct_unless_same_string (JVal.num 0) (by decide)⟩
